import Mathlib

/-!
# chewer: ingest → transform → emit

A shallow embedding of `chewer.go` (package `chewer`): the functions `Ingest`,
`Chew` and `Spit`, over an explicit model of the operating-system objects they
touch (the file system seen through `os.Open`, the standard streams, the
`bufio.Scanner` line reader and the stack of deferred `Close` calls).

Go values are embedded as follows.

* `[]string` is `List String`; a nil slice and an empty slice are both `[]`
  (the code only appends to slices and ranges over them).
* `error` is `Option String`: `none` is the nil error, `some d` an error whose
  `Error()` text is `d`.  `fmt.Errorf` with the verbs `%s` and `%v` builds the
  text by concatenation.
* a Go result pair `([]string, error)` stays a pair of the two components.
* a Go `string` is a Lean `String`; the text written to a stream is the
  `String` of everything written so far, so that newlines inside an entry or
  inside an error description are visible in the output.
* writes to the standard streams and `Close` always go through: the code
  ignores their errors.
-/

namespace Chewer

/-! ## The environment -/

/-- What a `bufio.Scanner` delivers when drained over a reader: the tokens of
the successive successful `Scan` calls, and the value of `Err()` once `Scan`
has returned false (`none` when the reader ended with end-of-file). -/
structure Source where
  lines : List String
  err : Option String
  deriving DecidableEq, Repr

/-- Result of `os.Open` on a path: a readable file, or the cause of the
failure. -/
inductive OpenResult where
  | ok (src : Source)
  | fail (cause : String)
  deriving DecidableEq, Repr

/-- The part of the process environment `Ingest` reads: standard input and
the file system as seen through `os.Open`. -/
structure World where
  stdin : Source
  osOpen : String → OpenResult

/-- Observable steps of `Ingest` on operating-system resources.  Handles
are numbered in the order in which `os.Open` delivered them. -/
inductive Event where
  | stdinRead
  | opened (h : Nat) (path : String)
  | openFailed (path : String)
  | returned
  | closed (h : Nat)
  deriving DecidableEq, Repr

/-- The two output streams of the process, as the text written so far. -/
structure Console where
  stdout : String
  stderr : String
  deriving DecidableEq, Repr

/-! ## Library calls used by the code -/

/-- The loop `for scanner.Scan() { input = append(input, scanner.Text()) }`:
one append per delivered token. -/
def scanAll : List String → List String → List String
  | input, [] => input
  | input, tok :: rest => scanAll (input ++ [tok]) rest

/-- The text produced by `fmt.Println` / `fmt.Fprintln` for operands already
rendered by `%v`: operands separated by one space, then a newline. -/
def sprintln (operands : List String) : String :=
  " ".intercalate operands ++ "\n"

/-- Call of `fmt.Println(line)`: appends to standard output. -/
def Println (operands : List String) (c : Console) : Console :=
  { c with stdout := c.stdout ++ sprintln operands }

/-- Call of `fmt.Fprintln(os.Stderr, ...)`: appends to standard error. -/
def FprintlnStderr (operands : List String) (c : Console) : Console :=
  { c with stderr := c.stderr ++ sprintln operands }

/-! ## `Ingest` -/

/-- State of the file loop of `Ingest` when it stops: the pair the `return`
statement yields, the stack of deferred `Close` calls (latest first) and the
events so far. -/
structure LoopExit where
  lines : List String
  err : Option String
  deferred : List Nat
  events : List Event

/-- The loop `for _, file := range args { ... }` of `Ingest`, started with
the accumulated `input`, the deferred-call stack and the events so far. -/
def ingestFiles (w : World) :
    List String → List String → List Nat → List Event → LoopExit
  | [], input, deferred, events => ⟨input, none, deferred, events⟩
  | file :: rest, input, deferred, events =>
    match w.osOpen file with
    | .fail cause =>
      ⟨[], some ("error opening file " ++ file ++ ": " ++ cause), deferred,
        events ++ [Event.openFailed file]⟩
    | .ok src =>
      let f := deferred.length
      let deferred := f :: deferred
      let events := events ++ [Event.opened f file]
      let input := scanAll input src.lines
      match src.err with
      | some cause =>
        ⟨[], some ("error reading file " ++ file ++ ": " ++ cause), deferred, events⟩
      | none => ingestFiles w rest input deferred events

/-- Outcome of a call of `Ingest`: the returned pair and the events of the
call, the deferred calls included. -/
structure IngestRun where
  lines : List String
  err : Option String
  events : List Event
  deriving DecidableEq, Repr

/-- `Ingest(args)`: the returned pair and the trace of the call.  The
`return` statement is followed by the deferred `f.Close()` calls in
last-in-first-out order. -/
def Ingest (w : World) (args : List String) : IngestRun :=
  if args.length = 0 then
    let input := scanAll [] w.stdin.lines
    match w.stdin.err with
    | some cause =>
      ⟨[], some ("error reading from stdin: " ++ cause), [Event.stdinRead, Event.returned]⟩
    | none => ⟨input, none, [Event.stdinRead, Event.returned]⟩
  else
    let r := ingestFiles w args [] [] []
    ⟨r.lines, r.err, r.events ++ Event.returned :: r.deferred.map Event.closed⟩

/-! ## `Chew` -/

/-- The interface `Processor`: one method `Process`.  An implementation may
keep state of its own (type `σ`), which a call reads and updates. -/
structure Processor (σ : Type) where
  Process : List String → σ → (List String × Option String) × σ

/-- `Chew(input, p)`. -/
def Chew {σ : Type} (input : List String) (p : Processor σ) (s : σ) :
    (List String × Option String) × σ :=
  p.Process input s

/-- The identity transform: returns its input and a nil error. -/
def identityProcessor : Processor Unit where
  Process := fun input s => ((input, none), s)

/-- A processor instrumented with the list of the arguments of its calls, in
call order. -/
def recording {σ : Type} (p : Processor σ) : Processor (σ × List (List String)) where
  Process := fun input s =>
    let r := p.Process input s.1
    (r.1, (r.2, s.2 ++ [input]))

/-! ## `Spit` -/

/-- The loop `for _, line := range output { fmt.Println(line) }`. -/
def printAll : List String → Console → Console
  | [], c => c
  | line :: rest, c => printAll rest (Println [line] c)

/-- `Spit(output, err)`. -/
def Spit (output : List String) (err : Option String) (c : Console) : Console :=
  match err with
  | some d => FprintlnStderr ["Error:", d] c
  | none => printAll output c

/-! ## Observations on traces and streams -/

/-- Whether `os.Open` succeeds on a path and the scanner over the file ends
without error. -/
def readsCleanly (w : World) (p : String) : Bool :=
  match w.osOpen p with
  | .ok src => src.err.isNone
  | .fail _ => false

/-- The lines a scanner delivers over the file at a path (none when the path
does not open). -/
def fileLines (w : World) (p : String) : List String :=
  match w.osOpen p with
  | .ok src => src.lines
  | .fail _ => []

/-- The events of opening the given paths one after the other, the first
handle being number `k`. -/
def openedEvents : Nat → List String → List Event
  | _, [] => []
  | k, p :: ps => Event.opened k p :: openedEvents (k + 1) ps

/-- The deferred `Close` calls run at return when `n` handles are open:
latest handle first. -/
def closeEvents (n : Nat) : List Event :=
  (List.range n).reverse.map Event.closed

/-- Handles open after a sequence of events, replayed from `held`. -/
def openAfter : List Event → List Nat → List Nat
  | [], held => held
  | Event.opened h _ :: es, held => openAfter es (h :: held)
  | Event.closed h :: es, held => openAfter es (held.erase h)
  | _ :: es, held => openAfter es held

/-- Handles delivered by `os.Open` in a sequence of events, in order. -/
def openedIn : List Event → List Nat
  | [] => []
  | Event.opened h _ :: es => h :: openedIn es
  | _ :: es => openedIn es

/-- Paths on which `os.Open` was called in a sequence of events, in order. -/
def openCalls : List Event → List String
  | [] => []
  | Event.opened _ p :: es => p :: openCalls es
  | Event.openFailed p :: es => p :: openCalls es
  | _ :: es => openCalls es

/-- Whether an event is a `Close`. -/
def Event.isClose : Event → Bool
  | Event.closed _ => true
  | _ => false

/-- A body of events is one in which nothing is closed and the `return`
statement has not been reached. -/
def isBody (ev : List Event) : Prop :=
  ∀ e ∈ ev, e.isClose = false ∧ e ≠ Event.returned

/-- The newline character. -/
def newline : Char := Char.ofNat 10

/-- The lines of a text: the maximal newline-free pieces, each ended by a
newline; a last piece without newline counts when it is not empty. -/
def linesOfChars : List Char → List Char → List (List Char)
  | [], [] => []
  | [], cur => [cur.reverse]
  | ch :: rest, cur =>
    if ch = newline then cur.reverse :: linesOfChars rest []
    else linesOfChars rest (ch :: cur)

/-- The lines of a stream text. -/
def linesOf (s : String) : List (List Char) := linesOfChars s.data []

/-- The text made of each entry followed by one newline, in order. -/
def concatLines : List String → String
  | [] => ""
  | line :: rest => line ++ "\n" ++ concatLines rest

/-! ## The line scanner over the bytes of a file

`Ingest` builds its scanners with `bufio.NewScanner`, which splits with
`bufio.ScanLines` and keeps the default buffer limit `bufio.MaxScanTokenSize`.
A line, the carriage return before its newline included, must fit in the
buffer together with its newline; otherwise `Scan` stops and `Err()` is
`bufio.ErrTooLong`. -/

/-- The constant `bufio.MaxScanTokenSize`, 64 * 1024. -/
def maxScanTokenSize : Nat := 65536

/-- The text of `bufio.ErrTooLong`. -/
def errTooLong : String := "bufio.Scanner: token too long"

/-- The carriage-return character. -/
def carriageReturn : Char := Char.ofNat 13

/-- Number of bytes of a text in UTF-8. -/
def byteLen : List Char → Nat
  | [] => 0
  | ch :: rest => ch.utf8Size + byteLen rest

/-- The helper `dropCR` of `bufio.ScanLines`: drops one final carriage
return. -/
def dropCR (data : List Char) : List Char :=
  if data.getLast? = some carriageReturn then data.dropLast else data

/-- The tokens and the final `Err()` of a scanner over a reader that
delivers the given bytes and then end-of-file; `cur` holds, latest first,
the bytes of the line being assembled.  A line that has reached
`maxScanTokenSize` bytes without its newline fills the buffer and ends the
scan with `errTooLong`; a last line without newline is delivered when it is
not empty. -/
def scanTokens : List Char → List Char → Source
  | [], cur =>
    if cur = [] then ⟨[], none⟩
    else if maxScanTokenSize ≤ byteLen cur then ⟨[], some errTooLong⟩
    else ⟨[String.mk (dropCR cur.reverse)], none⟩
  | ch :: rest, cur =>
    if ch = newline then
      if maxScanTokenSize ≤ byteLen cur then ⟨[], some errTooLong⟩
      else
        match scanTokens rest [] with
        | ⟨toks, e⟩ => ⟨String.mk (dropCR cur.reverse) :: toks, e⟩
    else scanTokens rest (ch :: cur)

/-- What a scanner from `bufio.NewScanner` delivers over a file with the
given content, read without input/output error. -/
def scanContent (content : String) : Source :=
  scanTokens content.data []

/-- A processor that returns its input unchanged and counts its calls in its
own state. -/
def countingIdentity : Processor Nat where
  Process := fun input n => ((input, none), n + 1)

/-- A line of `maxScanTokenSize` bytes. -/
def longLine : String := String.mk (List.replicate maxScanTokenSize 'a')

/-- A file system given by file contents: `a.txt` holds the bytes of the
lines x and y, `b.txt` the line z without final newline, `big.txt` the one
line `longLine` and its newline; no other path opens. -/
def contentWorld : World where
  stdin := ⟨[], none⟩
  osOpen := fun p =>
    if p = "a.txt" then .ok (scanContent "x\ny\n")
    else if p = "b.txt" then .ok (scanContent "z")
    else if p = "big.txt" then .ok (scanContent (longLine ++ "\n"))
    else .fail ("open " ++ p ++ ": no such file or directory")

/-- A file system with `a.txt` holding the lines x, y and `b.txt` holding z;
`torn.txt` delivers one line and then a read error, any other path does not
open.  Standard input holds two lines. -/
def exampleWorld : World where
  stdin := ⟨["in1", "in2"], none⟩
  osOpen := fun p =>
    if p = "a.txt" then .ok ⟨["x", "y"], none⟩
    else if p = "b.txt" then .ok ⟨["z"], none⟩
    else if p = "torn.txt" then .ok ⟨["t"], some "input/output error"⟩
    else .fail ("open " ++ p ++ ": no such file or directory")

/-- The example file system with a standard input that fails after one line. -/
def tornStdinWorld : World :=
  { exampleWorld with stdin := ⟨["in1"], some "input/output error"⟩ }

/-- The example file system with an empty standard input. -/
def emptyStdinWorld : World :=
  { exampleWorld with stdin := ⟨[], none⟩ }

/-! ## Lemmas on the library calls and on the file loop -/

theorem scanAll_eq_append (input toks : List String) :
    scanAll input toks = input ++ toks := by
  induction toks generalizing input with
  | nil => simp [scanAll]
  | cons t ts ih => simp [scanAll, ih]

theorem readsCleanly_iff (w : World) (p : String) :
    readsCleanly w p = true ↔ ∃ ls, w.osOpen p = .ok ⟨ls, none⟩ := by
  unfold readsCleanly
  cases h : w.osOpen p with
  | fail c => simp
  | ok src =>
    cases src with
    | mk ls e => cases e <;> simp

theorem openedEvents_append (k : Nat) (ps qs : List String) :
    openedEvents k (ps ++ qs) = openedEvents k ps ++ openedEvents (k + ps.length) qs := by
  induction ps generalizing k with
  | nil => simp [openedEvents]
  | cons p ps ih =>
    have hk : k + 1 + ps.length = k + (ps.length + 1) := by omega
    simp [openedEvents, ih, hk]

/-- One turn of the file loop on a path that opens and reads cleanly. -/
theorem ingestFiles_cons_clean (w : World) (p : String) (rest input ls : List String)
    (d : List Nat) (ev : List Event) (h : w.osOpen p = .ok ⟨ls, none⟩) :
    ingestFiles w (p :: rest) input d ev =
      ingestFiles w rest (input ++ ls) (d.length :: d) (ev ++ [Event.opened d.length p]) := by
  simp [ingestFiles, h, scanAll_eq_append]

/-- The file loop on a path that does not open. -/
theorem ingestFiles_cons_open_fail (w : World) (p cause : String) (rest input : List String)
    (d : List Nat) (ev : List Event) (h : w.osOpen p = .fail cause) :
    ingestFiles w (p :: rest) input d ev =
      ⟨[], some ("error opening file " ++ p ++ ": " ++ cause), d,
        ev ++ [Event.openFailed p]⟩ := by
  simp [ingestFiles, h]

/-- The file loop on a path that opens and whose scanner ends with an error. -/
theorem ingestFiles_cons_read_fail (w : World) (p cause : String) (rest input ls : List String)
    (d : List Nat) (ev : List Event) (h : w.osOpen p = .ok ⟨ls, some cause⟩) :
    ingestFiles w (p :: rest) input d ev =
      ⟨[], some ("error reading file " ++ p ++ ": " ++ cause), d.length :: d,
        ev ++ [Event.opened d.length p]⟩ := by
  simp [ingestFiles, h]

/-- The file loop over a prefix of paths that all open and read cleanly: the
loop reaches the rest of the paths with the lines of the prefix appended and
one deferred `Close` per path. -/
theorem ingestFiles_clean_prefix (w : World) (pre rest input : List String)
    (d : List Nat) (ev : List Event)
    (h : ∀ p ∈ pre, readsCleanly w p = true) :
    ingestFiles w (pre ++ rest) input d ev =
      ingestFiles w rest (input ++ pre.flatMap (fileLines w))
        ((List.range' d.length pre.length).reverse ++ d)
        (ev ++ openedEvents d.length pre) := by
  induction pre generalizing input d ev with
  | nil => simp [openedEvents]
  | cons p ps ih =>
    have hp : readsCleanly w p = true := h p (by simp)
    obtain ⟨ls, hls⟩ := (readsCleanly_iff w p).1 hp
    have hps : ∀ q ∈ ps, readsCleanly w q = true := fun q hq => h q (by simp [hq])
    have hfl : fileLines w p = ls := by simp [fileLines, hls]
    rw [List.cons_append, ingestFiles_cons_clean w p _ _ ls d ev hls, ih _ _ _ hps]
    simp [hfl, openedEvents, List.range'_succ, List.flatMap_cons]

/-- On a non-empty argument list `Ingest` runs the file loop, then the
`return` statement, then the deferred calls. -/
theorem Ingest_of_ne_nil (w : World) (args : List String) (h : args ≠ []) :
    Ingest w args =
      ⟨(ingestFiles w args [] [] []).lines, (ingestFiles w args [] [] []).err,
        (ingestFiles w args [] [] []).events ++
          Event.returned :: (ingestFiles w args [] [] []).deferred.map Event.closed⟩ := by
  have hlen : args.length ≠ 0 := by
    intro h0
    exact h (List.length_eq_zero.1 h0)
  simp [Ingest, hlen]

theorem openCalls_append (es fs : List Event) :
    openCalls (es ++ fs) = openCalls es ++ openCalls fs := by
  induction es with
  | nil => rfl
  | cons e es ih => cases e <;> simp [openCalls, ih]

theorem openCalls_openedEvents (k : Nat) (ps : List String) :
    openCalls (openedEvents k ps) = ps := by
  induction ps generalizing k with
  | nil => rfl
  | cons p ps ih => simp [openedEvents, openCalls, ih]

theorem openCalls_closeEvents (n : Nat) : openCalls (closeEvents n) = [] := by
  unfold closeEvents
  induction (List.range n).reverse with
  | nil => rfl
  | cons h hs ih => simpa [openCalls] using ih

/-! ## Lemmas on traces -/

theorem openedIn_append (es fs : List Event) :
    openedIn (es ++ fs) = openedIn es ++ openedIn fs := by
  induction es with
  | nil => rfl
  | cons e es ih => cases e <;> simp [openedIn, ih]

theorem isBody_append_singleton (ev : List Event) (e : Event) (h : isBody ev)
    (hc : e.isClose = false) (hr : e ≠ Event.returned) : isBody (ev ++ [e]) := by
  intro x hx
  rcases List.mem_append.1 hx with hx | hx
  · exact h x hx
  · rw [List.mem_singleton.1 hx]
    exact ⟨hc, hr⟩

/-- Invariant of the file loop: the deferred stack holds exactly the handles
opened so far, latest first; the handles are 0, 1, ... in opening order; and
the loop closes nothing. -/
theorem ingestFiles_trace (w : World) (args input : List String) (d : List Nat)
    (ev : List Event) (hd : d = (openedIn ev).reverse)
    (hr : openedIn ev = List.range d.length) (hb : isBody ev) :
    (ingestFiles w args input d ev).deferred =
        (openedIn (ingestFiles w args input d ev).events).reverse ∧
      openedIn (ingestFiles w args input d ev).events =
        List.range (ingestFiles w args input d ev).deferred.length ∧
      isBody (ingestFiles w args input d ev).events := by
  induction args generalizing input d ev with
  | nil => exact ⟨hd, hr, hb⟩
  | cons file rest ih =>
    have hd2 : d.length :: d = (openedIn (ev ++ [Event.opened d.length file])).reverse := by
      simp [openedIn_append, openedIn, ← hd]
    have hr2 : openedIn (ev ++ [Event.opened d.length file]) =
        List.range (d.length :: d).length := by
      simp [openedIn_append, openedIn, hr, List.range_succ]
    have hb2 : isBody (ev ++ [Event.opened d.length file]) :=
      isBody_append_singleton ev _ hb rfl (by simp)
    cases hopen : w.osOpen file with
    | fail cause =>
      rw [ingestFiles_cons_open_fail w file cause rest input d ev hopen]
      refine ⟨?_, ?_, isBody_append_singleton ev _ hb rfl (by simp)⟩
      · simp [openedIn_append, openedIn, ← hd]
      · simp [openedIn_append, openedIn, hr]
    | ok src =>
      cases src with
      | mk ls e =>
        cases e with
        | some cause =>
          rw [ingestFiles_cons_read_fail w file cause rest input ls d ev hopen]
          exact ⟨hd2, hr2, hb2⟩
        | none =>
          rw [ingestFiles_cons_clean w file rest input ls d ev hopen]
          exact ih _ _ _ hd2 hr2 hb2

theorem openAfter_append (es fs : List Event) (held : List Nat) :
    openAfter (es ++ fs) held = openAfter fs (openAfter es held) := by
  induction es generalizing held with
  | nil => rfl
  | cons e es ih => cases e <;> simp [openAfter, ih]

theorem openAfter_body (ev : List Event) (held : List Nat) (hb : isBody ev) :
    openAfter ev held = (openedIn ev).reverse ++ held := by
  induction ev generalizing held with
  | nil => rfl
  | cons e es ih =>
    have hes : isBody es := fun x hx => hb x (List.mem_cons_of_mem _ hx)
    have he := (hb e (List.mem_cons_self _ _)).1
    cases e <;> simp_all [openAfter, openedIn, Event.isClose]

theorem openAfter_closes (hs held : List Nat) :
    openAfter (hs.map Event.closed) (hs ++ held) = held := by
  induction hs with
  | nil => rfl
  | cons h hs ih => simp [openAfter, ih]

/-! ## Lemmas on the output streams -/

theorem sprintln_singleton (line : String) : sprintln [line] = line ++ "\n" := by
  simp [sprintln, String.intercalate, String.intercalate.go]

theorem sprintln_error (d : String) : sprintln ["Error:", d] = "Error: " ++ d ++ "\n" := by
  have h : "Error:" ++ " " = "Error: " := by decide
  simp [sprintln, String.intercalate, String.intercalate.go, ← h]

theorem printAll_eq (output : List String) (c : Console) :
    printAll output c = ⟨c.stdout ++ concatLines output, c.stderr⟩ := by
  induction output generalizing c with
  | nil => simp [printAll, concatLines]
  | cons line rest ih =>
    simp [printAll, concatLines, ih, Println, sprintln_singleton, String.append_assoc]

theorem linesOfChars_append (l rest cur : List Char) (h : newline ∉ l) :
    linesOfChars (l ++ rest) cur = linesOfChars rest (l.reverse ++ cur) := by
  induction l generalizing cur with
  | nil => rfl
  | cons ch l ih =>
    have hch : ch ≠ newline := fun e => h (by simp [e])
    have hl : newline ∉ l := fun m => h (List.mem_cons_of_mem _ m)
    simp [linesOfChars, hch, ih _ hl]

/-- A newline-free text followed by one newline is one line. -/
theorem linesOf_single (t : String) (h : newline ∉ t.data) :
    linesOf (t ++ "\n") = [t.data] := by
  have hn : ("\n" : String).data = [newline] := by decide
  unfold linesOf
  rw [String.data_append, hn, linesOfChars_append _ _ _ h]
  simp [linesOfChars]

/-! ## Lemmas on the line scanner -/

theorem byteLen_replicate_a (n : Nat) : byteLen (List.replicate n 'a') = n := by
  induction n with
  | zero => rfl
  | succ n ih =>
    have h1 : ('a').utf8Size = 1 := rfl
    rw [List.replicate_succ, byteLen, ih, h1]
    omega

theorem scanTokens_append (l rest cur : List Char) (h : newline ∉ l) :
    scanTokens (l ++ rest) cur = scanTokens rest (l.reverse ++ cur) := by
  induction l generalizing cur with
  | nil => rfl
  | cons ch l ih =>
    have hch : ch ≠ newline := fun e => h (by simp [e])
    have hl : newline ∉ l := fun m => h (List.mem_cons_of_mem _ m)
    simp [scanTokens, hch, ih _ hl]

theorem byteLen_append (a b : List Char) : byteLen (a ++ b) = byteLen a + byteLen b := by
  induction a with
  | nil => simp [byteLen]
  | cons ch a ih => simp [byteLen, ih, Nat.add_assoc]

theorem byteLen_reverse (a : List Char) : byteLen a.reverse = byteLen a := by
  induction a with
  | nil => rfl
  | cons ch a ih =>
    rw [List.reverse_cons, byteLen_append, ih]
    simp [byteLen, Nat.add_comm]

/-- Any content whose first line has `maxScanTokenSize` bytes or more,
whether the line ends with a newline or with the file, delivers no line and
ends with `errTooLong`. -/
theorem scanTokens_long_first_line (l rest : List Char) (hl : newline ∉ l)
    (hlen : maxScanTokenSize ≤ byteLen l)
    (hrest : rest = [] ∨ ∃ r, rest = newline :: r) :
    scanTokens (l ++ rest) [] = ⟨[], some errTooLong⟩ := by
  have hrev : maxScanTokenSize ≤ byteLen l.reverse := by rw [byteLen_reverse]; exact hlen
  have hne : l.reverse ≠ [] := by
    intro h0
    rw [h0] at hrev
    revert hrev
    decide
  rw [scanTokens_append _ _ _ hl, List.append_nil]
  rcases hrest with h | ⟨r, h⟩
  · rw [h]
    simp only [scanTokens, if_neg hne, if_pos hrev]
  · rw [h]
    simp only [scanTokens, if_true, if_pos hrev]

/-- A file that starts with a line of `maxScanTokenSize` bytes delivers no
line and ends with `errTooLong`. -/
theorem scanContent_longLine : scanContent (longLine ++ "\n") = ⟨[], some errTooLong⟩ := by
  have hn : ("\n" : String).data = [newline] := by decide
  have hmem : newline ∉ List.replicate maxScanTokenSize 'a' := by
    intro hm
    have h2 := List.eq_of_mem_replicate hm
    revert h2
    decide
  have hlen : maxScanTokenSize ≤ byteLen (List.replicate maxScanTokenSize 'a') := by
    rw [byteLen_replicate_a]
  unfold scanContent
  rw [String.data_append, hn]
  show scanTokens (List.replicate maxScanTokenSize 'a' ++ [newline]) [] = _
  rw [scanTokens_append _ _ _ hmem, List.reverse_replicate, List.append_nil]
  simp only [scanTokens, if_true, if_pos hlen]

/-! ## The claims -/

/-- C1: for a non-empty list of paths in which every file opens and reads
without error, `Ingest` returns a nil error and exactly the concatenation, in
path order, of the lines of each file (a path listed twice contributes its
lines twice, since the concatenation runs over the list of paths). -/
theorem ingest_files_concat (w : World) (args : List String) (hne : args ≠ [])
    (hok : ∀ p ∈ args, readsCleanly w p = true) :
    (Ingest w args).err = none ∧
      (Ingest w args).lines = args.flatMap (fileLines w) := by
  have h := ingestFiles_clean_prefix w args [] [] [] [] hok
  rw [List.append_nil] at h
  rw [Ingest_of_ne_nil w args hne, h]
  simp [ingestFiles]

/-- C1, on the example of the specification: a.txt = [x, y] and b.txt = [z]
give [x, y, z], and a.txt listed twice gives its lines twice. -/
theorem ingest_files_concat_witness :
    ((Ingest exampleWorld ["a.txt", "b.txt"]).err = none ∧
      (Ingest exampleWorld ["a.txt", "b.txt"]).lines = ["x", "y", "z"]) ∧
    ((Ingest exampleWorld ["a.txt", "b.txt", "a.txt"]).err = none ∧
      (Ingest exampleWorld ["a.txt", "b.txt", "a.txt"]).lines = ["x", "y", "z", "x", "y"]) :=
  ⟨ingest_files_concat exampleWorld ["a.txt", "b.txt"] (by decide) (by decide),
   ingest_files_concat exampleWorld ["a.txt", "b.txt", "a.txt"] (by decide) (by decide)⟩

/-- C2: when path `k` is the first that fails to open (the paths `pre` before
it open and read without error), `Ingest` returns no lines and the error
"error opening file k: cause"; `os.Open` was called on `pre` and `k` only;
and the whole outcome is the same whatever paths follow `k` and whatever the
file system holds, as long as `pre` reads cleanly and `k` fails with `cause`. -/
theorem ingest_open_failure (w : World) (pre post : List String) (k cause : String)
    (hpre : ∀ p ∈ pre, readsCleanly w p = true)
    (hk : w.osOpen k = OpenResult.fail cause) :
    (Ingest w (pre ++ k :: post)).lines = [] ∧
    (Ingest w (pre ++ k :: post)).err =
      some ("error opening file " ++ k ++ ": " ++ cause) ∧
    openCalls (Ingest w (pre ++ k :: post)).events = pre ++ [k] ∧
    ∀ (w2 : World) (post2 : List String),
      (∀ p ∈ pre, readsCleanly w2 p = true) → w2.osOpen k = OpenResult.fail cause →
      Ingest w2 (pre ++ k :: post2) = Ingest w (pre ++ k :: post) := by
  have key : ∀ (v : World) (q : List String),
      (∀ p ∈ pre, readsCleanly v p = true) → v.osOpen k = OpenResult.fail cause →
      Ingest v (pre ++ k :: q) =
        ⟨[], some ("error opening file " ++ k ++ ": " ++ cause),
          openedEvents 0 pre ++ [Event.openFailed k] ++
            Event.returned :: closeEvents pre.length⟩ := by
    intro v q hv hvk
    rw [Ingest_of_ne_nil v _ (by simp), ingestFiles_clean_prefix v pre (k :: q) [] [] [] hv,
      ingestFiles_cons_open_fail v k cause q _ _ _ hvk]
    simp [closeEvents, List.range_eq_range']
  rw [key w post hpre hk]
  refine ⟨rfl, rfl, ?_, ?_⟩
  · simp [openCalls_append, openCalls_openedEvents, openCalls, openCalls_closeEvents]
  · intro w2 post2 h2 h2k
    exact key w2 post2 h2 h2k

/-- C2 on the example file system: a.txt opens, missing.txt does not, b.txt
is never reached. -/
theorem ingest_open_failure_witness :
    (Ingest exampleWorld ["a.txt", "missing.txt", "b.txt"]).lines = [] ∧
    (Ingest exampleWorld ["a.txt", "missing.txt", "b.txt"]).err =
      some "error opening file missing.txt: open missing.txt: no such file or directory" ∧
    openCalls (Ingest exampleWorld ["a.txt", "missing.txt", "b.txt"]).events =
      ["a.txt", "missing.txt"] ∧
    Ingest emptyStdinWorld ["a.txt", "missing.txt"] =
      Ingest exampleWorld ["a.txt", "missing.txt", "b.txt"] :=
  have h := ingest_open_failure exampleWorld ["a.txt"] ["b.txt"] "missing.txt"
    "open missing.txt: no such file or directory" (by decide) (by decide)
  ⟨h.1, h.2.1, h.2.2.1, h.2.2.2 emptyStdinWorld [] (by decide) (by decide)⟩

/-- C3: a read error makes `Ingest` return no lines and an error, whatever
was read before.  In a file `k` reached after the cleanly read paths `pre`
(with `ls` the lines delivered before the error) the error is
"error reading file k: cause" and `os.Open` is called on no path after `k`;
on standard input (empty path list) the error is
"error reading from stdin: cause". -/
theorem ingest_read_failure (w : World) (pre post ls : List String) (k cause : String) :
    ((∀ p ∈ pre, readsCleanly w p = true) → w.osOpen k = OpenResult.ok ⟨ls, some cause⟩ →
      (Ingest w (pre ++ k :: post)).lines = [] ∧
      (Ingest w (pre ++ k :: post)).err =
        some ("error reading file " ++ k ++ ": " ++ cause) ∧
      openCalls (Ingest w (pre ++ k :: post)).events = pre ++ [k]) ∧
    (w.stdin = ⟨ls, some cause⟩ →
      (Ingest w []).lines = [] ∧
      (Ingest w []).err = some ("error reading from stdin: " ++ cause)) := by
  constructor
  · intro hpre hk
    rw [Ingest_of_ne_nil w _ (by simp), ingestFiles_clean_prefix w pre (k :: post) [] [] [] hpre,
      ingestFiles_cons_read_fail w k cause post _ ls _ _ hk]
    refine ⟨rfl, rfl, ?_⟩
    have hc := openCalls_closeEvents (pre.length + 1)
    simp only [closeEvents, List.range_succ, List.reverse_append, List.map_append] at hc
    simp [openCalls_append, openCalls_openedEvents, openCalls, hc, List.range_eq_range']
    simpa [List.range_eq_range', openCalls] using hc
  · intro hin
    simp [Ingest, hin]

/-- C3 on the examples: torn.txt fails after one line, once a.txt has been
read, and b.txt is not reached; a standard input failing after one line. -/
theorem ingest_read_failure_witness :
    ((Ingest exampleWorld ["a.txt", "torn.txt", "b.txt"]).lines = [] ∧
      (Ingest exampleWorld ["a.txt", "torn.txt", "b.txt"]).err =
        some "error reading file torn.txt: input/output error" ∧
      openCalls (Ingest exampleWorld ["a.txt", "torn.txt", "b.txt"]).events =
        ["a.txt", "torn.txt"]) ∧
    ((Ingest tornStdinWorld []).lines = [] ∧
      (Ingest tornStdinWorld []).err = some "error reading from stdin: input/output error") :=
  ⟨(ingest_read_failure exampleWorld ["a.txt"] ["b.txt"] ["t"] "torn.txt"
      "input/output error").1 (by decide) (by decide),
   (ingest_read_failure tornStdinWorld [] [] ["in1"] "" "input/output error").2 (by decide)⟩

/-- C4: on the empty path list, when standard input ends without a read
error, `Ingest` returns a nil error and exactly the lines of the stream in
read order; it reads standard input, calls `os.Open` on nothing, and returns
the empty sequence for an empty stream. -/
theorem ingest_stdin (w : World) (h : w.stdin.err = none) :
    (Ingest w []).err = none ∧
    (Ingest w []).lines = w.stdin.lines ∧
    (Ingest w []).events = [Event.stdinRead, Event.returned] ∧
    openCalls (Ingest w []).events = [] ∧
    (w.stdin.lines = [] → (Ingest w []).lines = []) := by
  have hrun : Ingest w [] = ⟨w.stdin.lines, none, [Event.stdinRead, Event.returned]⟩ := by
    simp [Ingest, h, scanAll_eq_append]
  rw [hrun]
  exact ⟨rfl, rfl, rfl, rfl, fun h0 => h0⟩

/-- C4 on the examples: a standard input of two lines, and an empty one. -/
theorem ingest_stdin_witness :
    ((Ingest exampleWorld []).err = none ∧ (Ingest exampleWorld []).lines = ["in1", "in2"]) ∧
    ((Ingest emptyStdinWorld []).err = none ∧ (Ingest emptyStdinWorld []).lines = []) :=
  have h1 := ingest_stdin exampleWorld (by decide)
  have h2 := ingest_stdin emptyStdinWorld (by decide)
  ⟨⟨h1.1, h1.2.1⟩, ⟨h2.1, h2.2.2.2.2 (by decide)⟩⟩

/-- C10: for every list of paths and every file system, the events of a call
of `Ingest` are a body, in which nothing is closed, then the `return`
statement, then one `Close` for each handle opened in the body, latest first;
the handles are pairwise distinct, and replaying the events leaves no handle
open.  This covers the success path and every failure path alike. -/
theorem ingest_closes_handles (w : World) (args : List String) :
    ∃ body : List Event,
      (Ingest w args).events =
          body ++ Event.returned :: (openedIn body).reverse.map Event.closed ∧
        (∀ e ∈ body, e.isClose = false ∧ e ≠ Event.returned) ∧
        (openedIn body).Nodup ∧
        openAfter (Ingest w args).events [] = [] := by
  have hfinal : ∀ body : List Event, isBody body →
      openAfter (body ++ Event.returned :: (openedIn body).reverse.map Event.closed) [] = [] := by
    intro body hb
    rw [openAfter_append, openAfter_body body [] hb]
    simpa [openAfter] using openAfter_closes (openedIn body).reverse []
  by_cases hargs : args = []
  · subst hargs
    refine ⟨[Event.stdinRead], ?_, ?_, ?_, ?_⟩
    · cases h : w.stdin.err <;> simp [Ingest, h, openedIn]
    · intro e he
      rw [List.mem_singleton.1 he]
      exact ⟨rfl, by simp⟩
    · simp [openedIn]
    · cases h : w.stdin.err <;> simp [Ingest, h, openAfter]
  · obtain ⟨hd, hr, hb⟩ := ingestFiles_trace w args [] [] [] rfl rfl (by intro e he; simp at he)
    refine ⟨(ingestFiles w args [] [] []).events, ?_, hb, ?_, ?_⟩
    · rw [Ingest_of_ne_nil w args hargs, ← hd]
    · rw [hr]
      exact List.nodup_range _
    · rw [Ingest_of_ne_nil w args hargs]
      simp only
      rw [hd]
      exact hfinal _ hb

/-- C5: with a nil error, `Spit` appends to standard output each entry of the
sequence verbatim followed by one newline, in sequence order, and nothing
else (nothing at all for the empty sequence), and leaves standard error
untouched. -/
theorem spit_success (output : List String) (c : Console) :
    Spit output none c = ⟨c.stdout ++ concatLines output, c.stderr⟩ ∧
      Spit [] none c = c := by
  constructor
  · simp [Spit, printAll_eq]
  · simp [Spit, printAll]

/-- C6, as the claim states it, fails: for an error whose description holds
a newline, what `Spit` writes to standard error is two lines, not one. -/
theorem spit_error_not_single_line :
    linesOf (Spit ["out"] (some "bad\ninput") ⟨"", ""⟩).stderr =
        ["Error: bad".data, "input".data] ∧
      (linesOf (Spit ["out"] (some "bad\ninput") ⟨"", ""⟩).stderr).length ≠ 1 := by
  decide

/-- C6, amended: for every non-nil error and every output sequence, `Spit`
appends to standard error exactly the marker "Error: ", the description
verbatim and one newline, and leaves standard output untouched; what it
writes is a single line whenever the description holds no newline. -/
theorem spit_error (output : List String) (d : String) (c : Console) :
    Spit output (some d) c = ⟨c.stdout, c.stderr ++ ("Error: " ++ d ++ "\n")⟩ ∧
      (newline ∉ d.data → linesOf ("Error: " ++ d ++ "\n") = [("Error: " ++ d).data]) := by
  constructor
  · simp [Spit, FprintlnStderr, sprintln_error]
  · intro h
    apply linesOf_single
    have hm : newline ∉ ("Error: " : String).data := by decide
    intro hmem
    rw [String.data_append] at hmem
    rcases List.mem_append.1 hmem with h1 | h1
    · exact hm h1
    · exact h h1

/-- C6 amended, on an example: a transform failure with a non-empty output. -/
theorem spit_error_witness :
    linesOf ("Error: " ++ "boom" ++ "\n") = [("Error: " ++ "boom").data] :=
  (spit_error ["out"] "boom" ⟨"", ""⟩).2 (by decide)

/-- C7: `Chew` returns exactly what `p.Process` returns on the complete
input (lines, error and the state the processor is left in), and on a
processor that records its calls the record after `Chew` is the single call
with the complete input. -/
theorem chew_calls_process_once {σ : Type} (input : List String) (p : Processor σ) (s : σ) :
    Chew input p s = p.Process input s ∧
      Chew input (recording p) (s, []) =
        ((p.Process input s).1, ((p.Process input s).2, [input])) := by
  constructor
  · rfl
  · simp [Chew, recording]

/-- C8, as the claim states it, fails: the file big.txt holds the single
line `longLine`, of 65536 bytes, and its newline, so its content is the
sequence [longLine]; `Ingest` fails on it with the scanner error,
returns no line, and the pipeline prints nothing of the line on standard
output, whether the failure goes to `Spit` at once (one line on standard
error) or the returned lines go through `Chew` with the identity processor. -/
theorem pipeline_long_line_fails :
    contentWorld.osOpen "big.txt" = OpenResult.ok (scanContent (longLine ++ "\n")) ∧
    (Ingest contentWorld ["big.txt"]).lines = [] ∧
    (Ingest contentWorld ["big.txt"]).err =
      some "error reading file big.txt: bufio.Scanner: token too long" ∧
    Spit (Ingest contentWorld ["big.txt"]).lines (Ingest contentWorld ["big.txt"]).err ⟨"", ""⟩ =
      ⟨"", "Error: error reading file big.txt: bufio.Scanner: token too long\n"⟩ ∧
    Spit (Chew (Ingest contentWorld ["big.txt"]).lines identityProcessor ()).1.1
        (Chew (Ingest contentWorld ["big.txt"]).lines identityProcessor ()).1.2 ⟨"", ""⟩ =
      ⟨"", ""⟩ ∧
    concatLines [longLine] ≠ "" := by
  have hopen : contentWorld.osOpen "big.txt" =
      OpenResult.ok (scanContent (longLine ++ "\n")) := rfl
  have hfail : contentWorld.osOpen "big.txt" = OpenResult.ok ⟨[], some errTooLong⟩ := by
    rw [hopen, scanContent_longLine]
  have hrun : Ingest contentWorld ["big.txt"] =
      ⟨[], some ("error reading file " ++ "big.txt" ++ ": " ++ errTooLong),
        [Event.opened 0 "big.txt", Event.returned, Event.closed 0]⟩ := by
    rw [Ingest_of_ne_nil contentWorld ["big.txt"] (by simp),
      ingestFiles_cons_read_fail contentWorld "big.txt" errTooLong [] [] [] [] [] hfail]
    rfl
  rw [hrun]
  refine ⟨hopen, rfl, by decide, by decide, by decide, ?_⟩
  intro h
  have hd := congrArg String.length h
  simp only [concatLines, String.length_append] at hd
  have h1 : ("\n" : String).length = 1 := by decide
  have h0 : ("" : String).length = 0 := by decide
  omega

/-- C8, amended: when the files of a non-empty path list all open and are
scanned to their end without error (a line of 65536 bytes or more is such an
error) and their scanned lines concatenate to `L`, then for every processor
`p` that returns its input unchanged with a nil error, whatever state it
keeps: `Ingest` succeeds with `L`, `Chew` yields `L` and a nil error, `Spit`
on that outcome appends to standard output exactly the entries of `L`, each
followed by a newline, in order, and leaves standard error untouched; and
`Chew` a second time on the same ingested sequence, from the state the first
run left, yields `L` and a nil error again. -/
theorem pipeline_identity {σ : Type} (w : World) (args L : List String) (c : Console)
    (p : Processor σ) (s : σ)
    (hne : args ≠ []) (hok : ∀ q ∈ args, readsCleanly w q = true)
    (hL : args.flatMap (fileLines w) = L)
    (hid : ∀ (input : List String) (t : σ), (p.Process input t).1 = (input, none)) :
    (Ingest w args).err = none ∧
    (Ingest w args).lines = L ∧
    (Chew (Ingest w args).lines p s).1 = (L, none) ∧
    Spit (Chew (Ingest w args).lines p s).1.1 (Chew (Ingest w args).lines p s).1.2 c =
      ⟨c.stdout ++ concatLines L, c.stderr⟩ ∧
    (Chew (Ingest w args).lines p (Chew (Ingest w args).lines p s).2).1 = (L, none) := by
  have h := ingestFiles_clean_prefix w args [] [] [] [] hok
  rw [List.append_nil] at h
  have hrun : (Ingest w args).err = none ∧ (Ingest w args).lines = L := by
    rw [Ingest_of_ne_nil w args hne, h]
    simp [ingestFiles, hL]
  have hchew : ∀ t : σ, (Chew (Ingest w args).lines p t).1 = (L, none) := by
    intro t
    rw [hrun.2]
    exact hid L t
  refine ⟨hrun.1, hrun.2, hchew s, ?_, hchew _⟩
  rw [hchew s]
  simp [Spit, printAll_eq]

/-- C8 amended, on files given by their bytes: a.txt holds "x\ny\n" and b.txt
holds "z"; both are scanned without error, and the pipeline prints x, y, z,
one per line, with the stateless identity processor and with one that counts
its calls, on the first run and on the second. -/
theorem pipeline_identity_witness :
    (Spit (Chew (Ingest contentWorld ["a.txt", "b.txt"]).lines identityProcessor ()).1.1
        (Chew (Ingest contentWorld ["a.txt", "b.txt"]).lines identityProcessor ()).1.2 ⟨"", ""⟩ =
      ⟨"x\ny\nz\n", ""⟩) ∧
    ((Chew (Ingest contentWorld ["a.txt", "b.txt"]).lines countingIdentity 0).1 =
        (["x", "y", "z"], none) ∧
      (Chew (Ingest contentWorld ["a.txt", "b.txt"]).lines countingIdentity
        (Chew (Ingest contentWorld ["a.txt", "b.txt"]).lines countingIdentity 0).2).1 =
        (["x", "y", "z"], none)) :=
  have h1 := pipeline_identity contentWorld ["a.txt", "b.txt"] ["x", "y", "z"] ⟨"", ""⟩
    identityProcessor () (by decide) (by decide) (by decide) (fun _ _ => rfl)
  have h2 := pipeline_identity contentWorld ["a.txt", "b.txt"] ["x", "y", "z"] ⟨"", ""⟩
    countingIdentity 0 (by decide) (by decide) (by decide) (fun _ _ => rfl)
  ⟨h1.2.2.2.1, h2.2.2.1, h2.2.2.2.2⟩

/-- C9, as the claim states it, fails: for a path that holds a newline and
does not open, `Spit` on the outcome of `Ingest` writes three lines to
standard error, not one. -/
theorem open_failure_report_not_single_line :
    exampleWorld.osOpen "no\nfile" =
        OpenResult.fail "open no\nfile: no such file or directory" ∧
      (linesOf (Spit (Ingest exampleWorld ["no\nfile"]).lines
        (Ingest exampleWorld ["no\nfile"]).err ⟨"", ""⟩).stderr).length = 3 := by
  decide

/-- C9, amended: for every path `p` that does not open, `Spit` on the outcome
of `Ingest [p]` leaves standard output untouched and appends to standard
error exactly "Error: error opening file p: cause" and one newline; when
neither `p` nor the cause holds a newline, this is exactly one line, it
begins with "Error:" and it contains `p`. -/
theorem open_failure_report (w : World) (p cause : String) (c : Console)
    (h : w.osOpen p = OpenResult.fail cause) :
    Spit (Ingest w [p]).lines (Ingest w [p]).err c =
        ⟨c.stdout,
          c.stderr ++ ("Error: " ++ ("error opening file " ++ p ++ ": " ++ cause) ++ "\n")⟩ ∧
      (newline ∉ p.data → newline ∉ cause.data →
        ∃ l : List Char,
          linesOf ("Error: " ++ ("error opening file " ++ p ++ ": " ++ cause) ++ "\n") = [l] ∧
            "Error:".data <+: l ∧ p.data <:+: l) := by
  constructor
  · rw [Ingest_of_ne_nil w [p] (by simp), ingestFiles_cons_open_fail w p cause [] [] [] [] h]
    simp [Spit, FprintlnStderr, sprintln_error]
  · intro hp hc
    refine ⟨("Error: " ++ ("error opening file " ++ p ++ ": " ++ cause)).data, ?_, ?_, ?_⟩
    · apply linesOf_single
      have h1 : newline ∉ ("Error: " : String).data := by decide
      have h2 : newline ∉ ("error opening file " : String).data := by decide
      have h3 : newline ∉ (": " : String).data := by decide
      simp only [String.data_append, List.mem_append, not_or]
      exact ⟨h1, ⟨⟨⟨h2, hp⟩, h3⟩, hc⟩⟩
    · have h1 : ("Error: " : String).data = "Error:".data ++ " ".data := by decide
      rw [String.data_append, h1, List.append_assoc]
      exact List.prefix_append _ _
    · simp only [String.data_append]
      refine ⟨"Error: ".data ++ "error opening file ".data, ": ".data ++ cause.data, ?_⟩
      simp [List.append_assoc]

/-- C9 amended, on the example file system: missing.txt does not open. -/
theorem open_failure_report_witness :
    Spit (Ingest exampleWorld ["missing.txt"]).lines
        (Ingest exampleWorld ["missing.txt"]).err ⟨"", ""⟩ =
      ⟨"", "Error: error opening file missing.txt: open missing.txt: no such file or directory\n"⟩ ∧
    ∃ l : List Char,
      linesOf ("Error: " ++ ("error opening file " ++ "missing.txt" ++ ": " ++
          "open missing.txt: no such file or directory") ++ "\n") = [l] ∧
        "Error:".data <+: l ∧ "missing.txt".data <:+: l :=
  have h := open_failure_report exampleWorld "missing.txt"
    "open missing.txt: no such file or directory" ⟨"", ""⟩ (by decide)
  ⟨h.1, h.2 (by decide) (by decide)⟩

end Chewer
